import Mathlib

/-!
Shallow embedding of the canteen reservoir-operations engine.

Real-valued quantities (storage, capacity, inflow, releases, outlet
locations) are modelled as rationals (`ℚ`): the Python code performs exact
arithmetic expressible over the rationals at every input considered here.

Python numbers appearing as outlet locations are modelled by `Loc`:
the source dispatches on `isinstance(location, int)` versus
`isinstance(location, float)`, so the embedding keeps the two cases apart.
A Python float is represented by an exact decimal `m / 10^e`; its
`str(...)` rendering and `round(..., 1)` are modelled for such exact
decimals (for these values CPython's shortest round-trip repr is the
decimal literal itself, and `round` is round-half-to-even).
-/

/-- Python number used as an outlet location: `int n`, or `float m e`
representing the exact decimal value `m / 10^e`. -/
inductive Loc where
  | int : Int → Loc
  | float : Int → Nat → Loc
deriving DecidableEq, Repr

/-- Rational value of a location. -/
def Loc.val : Loc → ℚ
  | .int n => (n : ℚ)
  | .float m e => (m : ℚ) / ((10 : ℚ) ^ e)

/-- Mantissa of a location (`m` for a float, the integer itself for an int). -/
def Loc.m : Loc → Int
  | .int n => n
  | .float m _ => m

/-- Decimal exponent of a location (`0` for an int). -/
def Loc.e : Loc → Nat
  | .int _ => 0
  | .float _ e => e

/-- `10 ^ e` over the integers, by structural recursion. -/
def pow10 : Nat → Int
  | 0 => 1
  | e + 1 => 10 * pow10 e

/-- Numeric strict comparison of two locations, by cross-multiplication of
the exact decimals `m / 10^e` (denominators are positive); this is the
comparison Python performs on the numbers themselves. -/
def locLt (a b : Loc) : Prop := a.m * pow10 b.e < b.m * pow10 a.e

instance : DecidableRel locLt := fun a b => by unfold locLt; infer_instance

/-- Numeric equality of two locations. -/
def locEq (a b : Loc) : Prop := a.m * pow10 b.e = b.m * pow10 a.e

instance : DecidableRel locEq := fun a b => by unfold locEq; infer_instance

/-- Strip trailing decimal zeros from `m / 10^e`, keeping at least one
fractional digit; recursion is on the exponent. -/
def stripZ : Nat → Int → Int × Nat
  | 0, m => (m, 0)
  | 1, m => (m, 1)
  | e + 2, m => if m % 10 = 0 then stripZ (e + 1) (m / 10) else (m, e + 2)

/-- Render the exact decimal `m / 10^e` (with `e ≥ 1`) as Python prints a
float: integer part, a dot, then `e` fractional digits. -/
def renderFD (m : Int) (e : Nat) : String :=
  let ds := (toString m.natAbs).data
  let ds := if ds.length ≤ e then List.replicate (e + 1 - ds.length) '0' ++ ds else ds
  String.mk ((if m < 0 then ['-'] else []) ++ ds.take (ds.length - e) ++ '.' :: ds.drop (ds.length - e))

/-- Python `str(location)`: `str(int)` is the decimal literal; `str(float)`
is the shortest decimal, always with a fractional part (e.g. `2.0`). -/
def pyStrLoc : Loc → String
  | .int n => toString n
  | .float m e =>
      let p := if e = 0 then (m * 10, 1) else stripZ e m
      renderFD p.1 p.2

/-- Python `round(m / 10^e, 1)` (round half to even), returning the decimal
as a mantissa/exponent pair with exponent at most 1. -/
def round1 (m : Int) (e : Nat) : Int × Nat :=
  if e ≤ 1 then (m, e)
  else
    let d : Int := (10 : Int) ^ (e - 1)
    let q := Int.fdiv m d
    let r := Int.fmod m d
    if 2 * r < d then (q, 1)
    else if d < 2 * r then (q + 1, 1)
    else if q % 2 = 0 then (q, 1) else (q + 1, 1)

/-- The `@`-suffix written by the first rename pass: the raw int for an int
location, else the f-string of `round(location, 1)`. -/
def fpSuffix : Loc → String
  | .int n => toString n
  | .float m e =>
      let p := round1 m e
      pyStrLoc (.float p.1 p.2)

/-- Release range `(min, max)` as in `ReleaseRange`. -/
abbrev ReleaseRange := ℚ × ℚ

/-- `BasicOutlet` from `plugins/outlets/basic.py`: name, location and a
design release range. -/
structure Outlet where
  name : String
  location : Loc
  design_range : ReleaseRange
deriving DecidableEq, Repr

/-- `BasicOutlet.operations`: release range for a fill state.  Below or at
the outlet location nothing passes; above it the design range is clamped
by the volume over the gate. -/
def Outlet.operations (o : Outlet) (fill_state : ℚ) : ReleaseRange :=
  let over_gate := fill_state - o.location.val
  if over_gate ≤ 0 then (0, 0)
  else (min o.design_range.1 over_gate, min over_gate o.design_range.2)

/-- State of a `BasicReservoir` (`canteen/reservoir.py`): name, storage and
capacity (the policy is applied explicitly, outlets are carried where a
policy needs them). -/
structure BasicReservoir where
  name : String
  storage : ℚ
  capacity : ℚ
deriving DecidableEq, Repr

/-- `Passive.operate` from `canteen/operations.py`: spill whatever exceeds
capacity, store the rest; returns the updated reservoir and the release. -/
def Passive.operate (r : BasicReservoir) (inflow : ℚ) : BasicReservoir × ℚ :=
  let release := max 0 (r.storage + inflow - r.capacity)
  ({ r with storage := r.storage + inflow - release }, release)

/-- `Passive.output_labels`. -/
def Passive.output_labels : List String := ["Spill"]

/-- Reservoir with outlets attached, as used by `PassiveOutlets.operate`. -/
structure ReservoirO where
  name : String
  storage : ℚ
  capacity : ℚ
  outlets : List Outlet
deriving DecidableEq, Repr

/-- The outlet loop of `PassiveOutlets.operate`: each outlet releases the
max of its range at the current volume, which is then drawn down; returns
the per-outlet releases and the remaining volume. -/
def passiveOutletsGo : List Outlet → ℚ → List ℚ × ℚ
  | [], volume => ([], volume)
  | o :: rest, volume =>
      let release := (o.operations volume).2
      let p := passiveOutletsGo rest (volume - release)
      (release :: p.1, p.2)

/-- `PassiveOutlets.operate` from
`canteen/plugins/operations/passive_outlets.py`: run the outlet loop on
`storage + inflow`, append `spill = max 0 (volume - capacity)` to the
outputs, and set `storage := volume` (the source does not subtract the
spill from the stored volume). -/
def PassiveOutlets.operate (r : ReservoirO) (inflow : ℚ) : ReservoirO × List ℚ :=
  let p := passiveOutletsGo r.outlets (r.storage + inflow)
  let spill := max 0 (p.2 - r.capacity)
  ({ r with storage := p.2 }, p.1 ++ [spill])

/-- `PassiveOutlets.output_labels`. -/
def PassiveOutlets.output_labels (r : ReservoirO) : List String :=
  r.outlets.map (·.name) ++ ["Spill"]

/-- `Pools` from `canteen/plugins/reservoirs/pools.py`: named bands with
top locations. -/
structure Pools where
  names : List String
  top_locations : List ℚ
deriving DecidableEq, Repr

/-- `Pools.__post_init__`: construction only validates that the two lists
have equal length. -/
def Pools.mkChecked (names : List String) (top_locations : List ℚ) : Except String Pools :=
  if names.length ≠ top_locations.length then
    .error "Error: each named pool must be given a location"
  else .ok ⟨names, top_locations⟩

/-- The default demonstration pools. -/
def defaultPools : Pools :=
  ⟨["dead", "conservation", "flood", "surcharge", "spill"],
   [2/10, 5/10, 75/100, 9/10, 11/10]⟩

/-- Result of `ReservoirWithPools.active_pool`: a `(name, volume)` tuple,
or — on the code path where the volume is above every band — a bare
string (the source executes `return ''`, not a tuple). -/
inductive ActivePoolResult where
  | pair : String → ℚ → ActivePoolResult
  | bare : String → ActivePoolResult
deriving DecidableEq, Repr

/-- The scan in `active_pool`: walk names and tops in parallel carrying the
previous top; at the first top `≥ volume` return the band name with the
in-band volume; past the last band return the bare string `''`. -/
def activePoolGo (volume : ℚ) : List String → List ℚ → Option ℚ → ActivePoolResult
  | k :: ks, t :: ts, prev =>
      if volume ≤ t then
        match prev with
        | none => .pair k volume
        | some pv => .pair k (volume - pv)
      else activePoolGo volume ks ts (some t)
  | _, _, _ => .bare ""

/-- `ReservoirWithPools.active_pool`. -/
def Pools.active_pool (p : Pools) (volume : ℚ) : ActivePoolResult :=
  activePoolGo volume p.names p.top_locations none

instance {ε α : Type} [DecidableEq ε] [DecidableEq α] : DecidableEq (Except ε α)
  | .error e, .error f =>
      if h : e = f then .isTrue (by rw [h]) else .isFalse (by simp [h])
  | .error _, .ok _ => .isFalse (by simp)
  | .ok _, .error _ => .isFalse (by simp)
  | .ok a, .ok b =>
      if h : a = b then .isTrue (by rw [h]) else .isFalse (by simp [h])

/-- Errors raised by `format_outlets`, one constructor per `raise` site:
invalid name in preprocessing, duplicate-count mismatch in
`find_duplicates`, and the final residual-duplicate consistency check. -/
inductive FmtError where
  | invalidName : String → FmtError
  | foundCount : String → FmtError
  | uniqueFail : List String → FmtError
deriving DecidableEq, Repr

/-- Split a character list at every occurrence of `c`, as Python
`str.split` does (an empty input yields one empty piece). -/
def splitChar (c : Char) : List Char → List (List Char)
  | [] => [[]]
  | ch :: rest =>
      if ch = c then [] :: splitChar c rest
      else
        match splitChar c rest with
        | [] => [[ch]]
        | h :: t => (ch :: h) :: t

/-- Python `name.split('@')`. -/
def pySplit (c : Char) (s : String) : List String :=
  (splitChar c s.data).map String.mk

/-- `preprocss` inside `format_outlets`: empty names become `"outlet"`;
a name with more than one `@` is invalid; a name with one `@` must have
its suffix equal to `str(location)`. -/
def preprocss : List Outlet → Except FmtError (List Outlet)
  | [] => .ok []
  | o :: rest => do
      let o' ←
        if o.name = "" then pure { o with name := "outlet" }
        else
          match pySplit '@' o.name with
          | [_] => pure o
          | [_, suf] =>
              if suf = pyStrLoc o.location then pure o
              else throw (.invalidName o.name)
          | _ => throw (.invalidName o.name)
      let rest' ← preprocss rest
      pure (o' :: rest')

/-- One step of `collections.Counter` over names: bump the count of `s`,
keeping keys in first-occurrence order. -/
def addCount (acc : List (String × Nat)) (s : String) : List (String × Nat) :=
  match acc with
  | [] => [(s, 1)]
  | (k, n) :: rest => if k = s then (k, n + 1) :: rest else (k, n) :: addCount rest s

/-- `Counter(names)` with keys in first-occurrence order. -/
def counter (names : List String) : List (String × Nat) :=
  names.foldl addCount []

/-- Name of the outlet at position `i` (positions model the aliased
references the Python lists hold into the one outlet collection). -/
def nameAt (l : List Outlet) (i : Nat) : String :=
  match l.get? i with
  | some o => o.name
  | none => ""

/-- Positions of the outlets bearing name `k`, in encounter order
(`find_duplicates` collects these same outlets by scanning the list). -/
def idxsWithName (l : List Outlet) (k : String) : List Nat :=
  (l.enum.filter (fun p => p.2.name = k)).map (·.1)

/-- Apply `f` to the outlet at position `i`. -/
def modifyIdx : List Outlet → Nat → (Outlet → Outlet) → List Outlet
  | [], _, _ => []
  | o :: rest, 0, f => f o :: rest
  | o :: rest, n + 1, f => o :: modifyIdx rest n f

/-- First rename pass over the duplicate positions: each duplicate gets
`@<suffix>` appended, the suffix built from its own location. -/
def renameFirstAt (l : List Outlet) (idxs : List Nat) : List Outlet :=
  idxs.foldl
    (fun acc i => modifyIdx acc i (fun o => { o with name := o.name ++ "@" ++ fpSuffix o.location }))
    l

/-- Scan up to the first `@`: returns the characters before it and the
characters from it on (the source's `name[:name.index('@')]` and
`name[name.index('@'):]`). -/
def spanToAt : List Char → List Char × List Char
  | [] => ([], [])
  | ch :: rest =>
      if ch = '@' then ([], ch :: rest)
      else
        let p := spanToAt rest
        (ch :: p.1, p.2)

/-- Split a name at its first `@`: the part before it, and the part from
the `@` on (second-pass names always contain an `@`, written by pass one). -/
def splitAtFirstAt (s : String) : String × String :=
  (String.mk (spanToAt s.data).1, String.mk (spanToAt s.data).2)

/-- Second rename pass over positions `idxs2` (in encounter order): the
`j`-th duplicate becomes `<pre><j+1><@location>`. -/
def renameSecondAt (l : List Outlet) (idxs2 : List Nat) : List Outlet :=
  idxs2.enum.foldl
    (fun acc p =>
      modifyIdx acc p.2 (fun o =>
        let q := splitAtFirstAt o.name
        { o with name := q.1 ++ toString (p.1 + 1) ++ q.2 }))
    l

/-- Process one entry `(k, n)` of the name counter, as the body of the
outer loop of `format_outlets`: groups with a single occurrence are
skipped; otherwise the duplicates are found (their count re-checked),
renamed by the first pass, re-counted, and residual duplicates within the
group renamed by the second pass. -/
def processGroup (l : List Outlet) (k : String) (n : Nat) : Except FmtError (List Outlet) :=
  if n ≤ 1 then .ok l
  else do
    let gidxs := idxsWithName l k
    if gidxs.length ≠ n then throw (.foundCount k)
    let l1 := renameFirstAt l gidxs
    let recount := counter (gidxs.map (nameAt l1))
    recount.foldlM
      (fun acc kn =>
        if kn.2 > 1 then do
          let idxs2 := gidxs.filter (fun i => nameAt acc i = kn.1)
          if idxs2.length ≠ kn.2 then throw (.foundCount kn.1)
          pure (renameSecondAt acc idxs2)
        else pure acc)
      l1

/-- Lexicographic comparison of character lists by code point, the
comparison Python applies to strings. -/
def strLtb : List Char → List Char → Bool
  | [], [] => false
  | [], _ :: _ => true
  | _ :: _, [] => false
  | a :: as, b :: bs => if a < b then true else if b < a then false else strLtb as bs

/-- Python `<` on names. -/
def pyStrLt (a b : String) : Prop := strLtb a.data b.data = true

instance : DecidableRel pyStrLt := fun a b => by unfold pyStrLt; infer_instance

/-- Strict ordering used by `sort_outlets`: descending location value,
ties broken by ascending name (the `Reverse` key wrapper in the source). -/
def keyLt (a b : Outlet) : Prop :=
  locLt b.location a.location ∨ (locEq a.location b.location ∧ pyStrLt a.name b.name)

instance : DecidableRel keyLt := fun a b => by
  unfold keyLt; infer_instance

/-- Insert an outlet in front of the first entry it strictly precedes. -/
def insertOutlet (x : Outlet) : List Outlet → List Outlet
  | [] => [x]
  | y :: ys => if keyLt x y then x :: y :: ys else y :: insertOutlet x ys

/-- `sort_outlets`: sort by descending location, then ascending name. -/
def sort_outlets : List Outlet → List Outlet
  | [] => []
  | x :: xs => insertOutlet x (sort_outlets xs)

/-- `format_outlets` from `canteen/outlet.py`: preprocess names, count
them, run the two rename passes per duplicated name, check that the final
names are pairwise distinct, and return the outlets sorted. -/
def format_outlets (outlets : List Outlet) : Except FmtError (List Outlet) := do
  let l ← preprocss outlets
  let l ← (counter (l.map (·.name))).foldlM (fun acc kn => processGroup acc kn.1 kn.2) l
  let names := l.map (·.name)
  if names.dedup.length ≠ names.length then throw (.uniqueFail names)
  pure (sort_outlets l)

/-- `sort_by_location` as imported by `canteen/reservoir.py`.
Modelled from the spec: the function itself is absent from the sources
(only its import and call sites appear); spec section 4.2 defines it as
ordering by descending location with ties broken by ascending name, the
same order `sort_outlets` implements. -/
def sort_by_location (outlets : List Outlet) : List Outlet :=
  sort_outlets outlets

/-- The step-1 validation of `preprocss` as a predicate on one outlet with
a nonempty name: at most one `@`, and a one-`@` name's suffix equals
`str(location)`. -/
def validNameB (o : Outlet) : Bool :=
  match pySplit '@' o.name with
  | [_] => true
  | [_, suf] => suf = pyStrLoc o.location
  | _ => false

/-- Index of the first entry that is at least `v` (length of the list if
there is none). -/
def firstIdxGo (v : ℚ) : List ℚ → Nat
  | [] => 0
  | t :: ts => if v ≤ t then 0 else firstIdxGo v ts + 1

/-- Index of the first band whose top is at least `v` (the band
`active_pool` selects). -/
def firstBandIdx (p : Pools) (v : ℚ) : Nat :=
  firstIdxGo v p.top_locations

/-- Result of `BasicReservoir.add_outlets`.  The source executes
`reservoir = copy.deepcopy(Reservoir)` — a copy of the `Reservoir`
protocol *class*, not of `self` — then sets an `outlets` attribute on it
and returns it; the result therefore carries only the outlets, none of the
calling reservoir's fields. -/
inductive AddOutletsResult where
  | protocolClassCopy : List Outlet → AddOutletsResult
deriving DecidableEq, Repr

/-- `BasicReservoir.add_outlets` with the default sorter: formats the
outlets, sorts them, and attaches them to the deep copy of the `Reservoir`
protocol class; `self` is never read. -/
def BasicReservoir.add_outlets (_self : BasicReservoir) (outlets : List Outlet) :
    Except FmtError AddOutletsResult :=
  (format_outlets outlets).map (fun fo => .protocolClassCopy (sort_by_location fo))

theorem pow10_eq_pow (e : Nat) : pow10 e = (10 : ℤ) ^ e := by
  induction e with
  | zero => rfl
  | succ n ih => rw [pow10, ih, pow_succ]; ring

theorem Loc.val_eq (a : Loc) : a.val = (a.m : ℚ) / ((10 : ℚ) ^ a.e) := by
  cases a <;> simp [Loc.val, Loc.m, Loc.e]

/-- Sanity: the cross-multiplied comparison `locLt` is the comparison of
the represented values. -/
theorem locLt_iff_val_lt (a b : Loc) : locLt a b ↔ a.val < b.val := by
  rw [Loc.val_eq, Loc.val_eq, div_lt_div_iff₀ (by positivity) (by positivity)]
  rw [locLt, pow10_eq_pow, pow10_eq_pow]
  constructor <;> intro h <;> exact_mod_cast h

/-- Sanity: the cross-multiplied equality `locEq` is equality of the
represented values. -/
theorem locEq_iff_val_eq (a b : Loc) : locEq a b ↔ a.val = b.val := by
  rw [Loc.val_eq, Loc.val_eq, div_eq_div_iff (by positivity) (by positivity)]
  rw [locEq, pow10_eq_pow, pow10_eq_pow]
  constructor <;> intro h <;> exact_mod_cast h

/-- C1: for every reservoir with `storage ≥ 0`, `capacity > 0` and every
`inflow ≥ 0`, the Passive policy's `operate` returns
`release = max 0 (storage + inflow - capacity)`, sets the new storage to
`storage + inflow - release` (hence `storage' + release = storage + inflow`),
and its single output is labelled `"Spill"`. -/
theorem passive_operate_conservation (r : BasicReservoir) (inflow : ℚ)
    (hs : 0 ≤ r.storage) (hc : 0 < r.capacity) (hq : 0 ≤ inflow) :
    (Passive.operate r inflow).2 = max 0 (r.storage + inflow - r.capacity) ∧
    (Passive.operate r inflow).1.storage = r.storage + inflow - (Passive.operate r inflow).2 ∧
    (Passive.operate r inflow).1.storage + (Passive.operate r inflow).2
      = r.storage + inflow ∧
    Passive.output_labels = ["Spill"] := by
  refine ⟨rfl, rfl, ?_, rfl⟩
  simp only [Passive.operate]
  ring

/-- Witness for C1: spec scenario `storage = 0`, `capacity = 1`,
`inflow = 1` gives `release = 0` and `storage' = 1`. -/
theorem passive_operate_conservation_witness :
    (Passive.operate ⟨"", 0, 1⟩ 1).1.storage + (Passive.operate ⟨"", 0, 1⟩ 1).2
      = (0 : ℚ) + 1 :=
  (passive_operate_conservation ⟨"", 0, 1⟩ 1 (by norm_num) (by norm_num)
    (by norm_num)).2.2.1

/-- C4: for an outlet with `0 ≤ design_range.min ≤ design_range.max`, the
release computation returns `(0, 0)` when `fill_state ≤ location`, and
otherwise `(min design_range.min over, min over design_range.max)` with
`over = fill_state - location`, so the maximum release never exceeds the
volume available above the outlet's location. -/
theorem basic_outlet_operations_clamp (o : Outlet) (fill_state : ℚ)
    (h0 : 0 ≤ o.design_range.1) (h1 : o.design_range.1 ≤ o.design_range.2) :
    (fill_state ≤ o.location.val → o.operations fill_state = (0, 0)) ∧
    (o.location.val < fill_state →
      o.operations fill_state
        = (min o.design_range.1 (fill_state - o.location.val),
           min (fill_state - o.location.val) o.design_range.2) ∧
      (o.operations fill_state).2 ≤ fill_state - o.location.val) := by
  constructor
  · intro h
    simp only [Outlet.operations]
    rw [if_pos (by linarith)]
  · intro h
    have hneg : ¬ (fill_state - o.location.val ≤ 0) := by linarith
    refine ⟨?_, ?_⟩
    · simp only [Outlet.operations]
      rw [if_neg hneg]
    · simp only [Outlet.operations]
      rw [if_neg hneg]
      exact min_le_left _ _

/-- Witness for C4: an outlet at location 5 with design range `(0, 15)`
passes nothing at fill state 3. -/
theorem basic_outlet_operations_clamp_witness :
    (⟨"x", .int 5, (0, 15)⟩ : Outlet).operations 3 = (0, 0) :=
  (basic_outlet_operations_clamp ⟨"x", .int 5, (0, 15)⟩ 3 (by norm_num)
    (by norm_num)).1 (by norm_num [Loc.val])

/-- C2 fails on the code: starting from a reservoir satisfying
`0 ≤ storage ≤ capacity` (storage 0, capacity 1, no outlets),
`PassiveOutlets.operate` with inflow 2 reports a spill of 1 but leaves
`storage = 2 > capacity = 1`: the transient overflow stays stored. -/
theorem passive_outlets_leaves_storage_above_capacity :
    (0 : ℚ) ≤ (⟨"r", 0, 1, []⟩ : ReservoirO).storage ∧
    (⟨"r", 0, 1, []⟩ : ReservoirO).storage ≤ (⟨"r", 0, 1, []⟩ : ReservoirO).capacity ∧
    (PassiveOutlets.operate ⟨"r", 0, 1, []⟩ 2).1.storage = 2 ∧
    (PassiveOutlets.operate ⟨"r", 0, 1, []⟩ 2).1.capacity = 1 ∧
    (PassiveOutlets.operate ⟨"r", 0, 1, []⟩ 2).2 = [1] ∧
    ¬ (PassiveOutlets.operate ⟨"r", 0, 1, []⟩ 2).1.storage
        ≤ (PassiveOutlets.operate ⟨"r", 0, 1, []⟩ 2).1.capacity := by
  norm_num [PassiveOutlets.operate, passiveOutletsGo]

/-- C3 fails on the code: in the same call the returned release vector is
`[1]` (the spill) and `storage_after = 2`, but
`storage_before + inflow - sum(releases) = 0 + 2 - 1 = 1 ≠ 2`; the spill
appears among the releases yet is never removed from storage. -/
theorem passive_outlets_breaks_conservation :
    ((PassiveOutlets.operate ⟨"r", 0, 1, []⟩ 2).2).sum = 1 ∧
    (PassiveOutlets.operate ⟨"r", 0, 1, []⟩ 2).1.storage
      ≠ (⟨"r", 0, 1, []⟩ : ReservoirO).storage + 2
          - ((PassiveOutlets.operate ⟨"r", 0, 1, []⟩ 2).2).sum := by
  norm_num [PassiveOutlets.operate, passiveOutletsGo]

/-- C7 fails on the code: with the default pools (last top 1.1), a volume
of 2 exceeds every band's top and `active_pool` returns the bare string
`''` — not a `(name, excess)` pair as its own docstring promises. -/
theorem active_pool_overflow_returns_bare_string :
    defaultPools.active_pool 2 = .bare "" ∧
    ∀ name vol, defaultPools.active_pool 2 ≠ .pair name vol := by
  have h : defaultPools.active_pool 2 = .bare "" := by
    norm_num [Pools.active_pool, defaultPools, activePoolGo]
  exact ⟨h, fun name vol hpair => by rw [h] at hpair; exact ActivePoolResult.noConfusion hpair⟩

/-- C9 fails on the code: `Pools.__post_init__` checks only that the two
lists have equal length, so a non-strictly-increasing `top_locations`
sequence such as `[2, 1]` is accepted without error. -/
theorem pools_accepts_non_increasing_tops :
    Pools.mkChecked ["a", "b"] [2, 1] = .ok ⟨["a", "b"], [2, 1]⟩ ∧
    ¬ List.Chain' (· < ·) ([2, 1] : List ℚ) := by
  constructor
  · rfl
  · intro h
    have := (List.chain'_cons.mp h).1
    norm_num at this

/-- C9 amended: `Pools` construction succeeds exactly when `names` and
`top_locations` have equal length; monotonicity of the tops is never
validated. -/
theorem pools_mkChecked_ok_iff (names : List String) (tops : List ℚ) :
    Pools.mkChecked names tops = .ok ⟨names, tops⟩ ↔ names.length = tops.length := by
  unfold Pools.mkChecked
  by_cases h : names.length = tops.length
  · simp [h]
  · simp [h]

/-- C10 fails on the code: `add_outlets` copies the `Reservoir` protocol
class, not `self`, so its result is the same for two reservoirs with
different names, storages and capacities — it cannot carry the caller's
fields — and in general never depends on `self`. -/
theorem add_outlets_ignores_self :
    BasicReservoir.add_outlets ⟨"A", 1/2, 2⟩ [] = .ok (.protocolClassCopy []) ∧
    BasicReservoir.add_outlets ⟨"B", 0, 1⟩ [] = .ok (.protocolClassCopy []) ∧
    ∀ (r r' : BasicReservoir) (outs : List Outlet),
      BasicReservoir.add_outlets r outs = BasicReservoir.add_outlets r' outs :=
  ⟨rfl, rfl, fun _ _ _ => rfl⟩

theorem exceptBind_ok {ε α β : Type} (a : α) (f : α → Except ε β) :
    (Except.ok a >>= f) = f a := rfl

theorem exceptBind_err {ε α β : Type} (e : ε) (f : α → Except ε β) :
    ((Except.error e : Except ε α) >>= f) = Except.error e := rfl

theorem insertOutlet_perm (x : Outlet) (l : List Outlet) :
    List.Perm (insertOutlet x l) (x :: l) := by
  induction l with
  | nil => simp [insertOutlet]
  | cons y ys ih =>
      rw [insertOutlet]
      by_cases h : keyLt x y
      · rw [if_pos h]
      · rw [if_neg h]
        exact (ih.cons y).trans (List.Perm.swap x y ys)

theorem sort_outlets_perm (l : List Outlet) : List.Perm (sort_outlets l) l := by
  induction l with
  | nil => simp [sort_outlets]
  | cons x xs ih => exact (insertOutlet_perm x (sort_outlets xs)).trans (ih.cons x)

/-- C5 fails on the code: the three outlets named `a`, `a` and `a1@1`, all
at integer location 1, pass the step-1 validation, yet the two-pass rename
turns the two `a`s into `a1@1` and `a2@1`, colliding with the untouched
third outlet — so `format_outlets` raises the defensive residual-duplicate
consistency error. -/
theorem format_outlets_unique_check_reachable :
    preprocss [⟨"a", .int 1, (0, 0)⟩, ⟨"a", .int 1, (0, 0)⟩, ⟨"a1@1", .int 1, (0, 0)⟩]
      = .ok [⟨"a", .int 1, (0, 0)⟩, ⟨"a", .int 1, (0, 0)⟩, ⟨"a1@1", .int 1, (0, 0)⟩] ∧
    format_outlets [⟨"a", .int 1, (0, 0)⟩, ⟨"a", .int 1, (0, 0)⟩, ⟨"a1@1", .int 1, (0, 0)⟩]
      = .error (.uniqueFail ["a1@1", "a2@1", "a1@1"]) :=
  ⟨by decide, by decide⟩

/-- C5 amended: whenever `format_outlets` returns successfully its output
names are pairwise distinct (the final check enforces this), but the
defensive residual-duplicate error is reachable from inputs that pass the
step-1 validation. -/
theorem format_outlets_ok_names_nodup (outlets out : List Outlet)
    (h : format_outlets outlets = .ok out) :
    (out.map (fun o => o.name)).Nodup := by
  unfold format_outlets at h
  rcases hpp : preprocss outlets with e | l
  · rw [hpp, exceptBind_err] at h; cases h
  · rw [hpp, exceptBind_ok] at h
    rcases hff : (counter (l.map fun o => o.name)).foldlM
        (fun acc kn => processGroup acc kn.1 kn.2) l with e | l2
    · rw [hff, exceptBind_err] at h; cases h
    · rw [hff, exceptBind_ok] at h
      by_cases hd : ((l2.map fun o => o.name).dedup.length ≠ (l2.map fun o => o.name).length)
      · rw [if_pos hd] at h; cases h
      · rw [if_neg hd] at h
        push_neg at hd
        have hout : out = sort_outlets l2 := by
          cases h; rfl
        have hnd : ((l2.map fun o => o.name)).Nodup := by
          have heq := (List.dedup_sublist (l2.map fun o => o.name)).eq_of_length hd
          rw [← heq]
          exact List.nodup_dedup _
        rw [hout]
        exact (((sort_outlets_perm l2).map (fun o => o.name)).nodup_iff).mpr hnd

/-- Witness for the C5 amendment: a successful formatting of two blank
outlets at distinct locations yields distinct names. -/
theorem format_outlets_ok_names_nodup_witness :
    (([⟨"outlet@2", .int 2, (0, 0)⟩, ⟨"outlet@1", .int 1, (0, 0)⟩] : List Outlet).map
      (fun o => o.name)).Nodup :=
  format_outlets_ok_names_nodup [⟨"", .int 1, (0, 0)⟩, ⟨"", .int 2, (0, 0)⟩] _ (by decide)

theorem preprocss_id (l : List Outlet)
    (h : ∀ o ∈ l, o.name ≠ "" ∧ validNameB o = true) :
    preprocss l = .ok l := by
  induction l with
  | nil => rfl
  | cons o rest ih =>
      obtain ⟨hne, hv⟩ := h o (List.mem_cons_self o rest)
      have hrest := ih (fun o' ho' => h o' (List.mem_cons_of_mem o ho'))
      rw [preprocss, if_neg hne]
      unfold validNameB at hv
      rcases hsplit : pySplit '@' o.name with _ | ⟨a, _ | ⟨b, _ | _⟩⟩ <;>
        rw [hsplit] at hv <;> simp only at hv
      · cases hv
      · simp only [pure_bind, hrest, exceptBind_ok]
        rfl
      · have hb : b = pyStrLoc o.location := of_decide_eq_true hv
        simp [hb, hrest]
      · cases hv

theorem addCount_of_not_mem (acc : List (String × Nat)) (s : String)
    (h : ∀ p ∈ acc, p.1 ≠ s) : addCount acc s = acc ++ [(s, 1)] := by
  induction acc with
  | nil => rfl
  | cons p rest ih =>
      rw [addCount, if_neg (h p (List.mem_cons_self p rest))]
      rw [ih (fun q hq => h q (List.mem_cons_of_mem p hq))]
      rfl

theorem counter_go_nodup (names : List String) :
    ∀ acc : List (String × Nat), (∀ s ∈ names, ∀ p ∈ acc, p.1 ≠ s) → names.Nodup →
      names.foldl addCount acc = acc ++ names.map (fun s => (s, 1)) := by
  induction names with
  | nil => intro acc _ _; simp
  | cons s rest ih =>
      intro acc hacc hnd
      rw [List.foldl_cons, addCount_of_not_mem acc s
        (hacc s (List.mem_cons_self s rest))]
      rw [ih (acc ++ [(s, 1)]) ?hyp (List.nodup_cons.mp hnd).2]
      · simp
      case hyp =>
        intro t ht p hp
        rcases List.mem_append.mp hp with hp | hp
        · exact hacc t (List.mem_cons_of_mem s ht) p hp
        · have hps : p = (s, 1) := List.mem_singleton.mp hp
          rw [hps]
          intro hst
          subst hst
          exact (List.nodup_cons.mp hnd).1 ht

theorem counter_of_nodup (names : List String) (h : names.Nodup) :
    counter names = names.map (fun s => (s, 1)) := by
  have := counter_go_nodup names [] (fun _ _ _ hp => absurd hp (List.not_mem_nil _)) h
  simpa [counter] using this

theorem processGroup_one (l : List Outlet) (k : String) :
    processGroup l k 1 = .ok l := by
  rw [processGroup, if_pos (le_refl 1)]

theorem foldlM_processGroup_ones (names : List String) :
    ∀ l : List Outlet,
      (names.map (fun s => (s, 1))).foldlM (fun acc kn => processGroup acc kn.1 kn.2) l
        = .ok l := by
  induction names with
  | nil => intro l; rfl
  | cons s rest ih =>
      intro l
      rw [List.map_cons, List.foldlM_cons, processGroup_one, exceptBind_ok]
      exact ih l

theorem sort_outlets_of_chain (l : List Outlet) (h : l.Chain' keyLt) :
    sort_outlets l = l := by
  induction l with
  | nil => rfl
  | cons x xs ih =>
      obtain ⟨hhead, htail⟩ := List.chain'_cons'.mp h
      rw [sort_outlets, ih htail]
      cases xs with
      | nil => rfl
      | cons y ys =>
          rw [insertOutlet, if_pos (hhead y rfl)]

/-- C8 fails on the code: formatting two blank outlets at float location
0.25 yields the valid output `[outlet1@0.2, outlet2@0.2]` (the first pass
writes the 1-decimal rounding `0.2`), but re-formatting that very output
fails the suffix validation, which compares against `str(0.25) = "0.25"`. -/
theorem format_outlets_not_idempotent :
    format_outlets [⟨"", .float 25 2, (0, 0)⟩, ⟨"", .float 25 2, (0, 0)⟩]
      = .ok [⟨"outlet1@0.2", .float 25 2, (0, 0)⟩, ⟨"outlet2@0.2", .float 25 2, (0, 0)⟩] ∧
    format_outlets [⟨"outlet1@0.2", .float 25 2, (0, 0)⟩, ⟨"outlet2@0.2", .float 25 2, (0, 0)⟩]
      = .error (.invalidName "outlet1@0.2") :=
  ⟨by decide, by decide⟩

/-- C8 amended: `format_outlets` is idempotent on outlet sets whose names
are nonempty, pass the suffix validation against `str(location)`, are
pairwise distinct and already stand in the canonical strict order
(descending location, ascending name): such a set is returned unchanged.
Outputs whose float location changes under 1-decimal rounding fall outside
this domain and are rejected on re-formatting instead. -/
theorem format_outlets_idempotent (l : List Outlet)
    (hvalid : ∀ o ∈ l, o.name ≠ "" ∧ validNameB o = true)
    (hnodup : (l.map (fun o => o.name)).Nodup)
    (hsorted : l.Chain' keyLt) :
    format_outlets l = .ok l := by
  unfold format_outlets
  rw [preprocss_id l hvalid, exceptBind_ok]
  rw [counter_of_nodup _ hnodup, foldlM_processGroup_ones _ l, exceptBind_ok]
  rw [if_neg ?hd]
  · rw [sort_outlets_of_chain l hsorted]
    rfl
  case hd =>
    intro hne
    exact hne (by rw [List.dedup_eq_self.mpr hnodup])

/-- Witness for the C8 amendment: an already-formatted pair of outlets at
integer locations 2 and 1 is returned unchanged. -/
theorem format_outlets_idempotent_witness :
    format_outlets [⟨"outlet@2", .int 2, (0, 0)⟩, ⟨"outlet@1", .int 1, (0, 0)⟩]
      = .ok [⟨"outlet@2", .int 2, (0, 0)⟩, ⟨"outlet@1", .int 1, (0, 0)⟩] :=
  format_outlets_idempotent _ (by decide) (by decide)
    (List.chain'_pair.mpr (by decide))

theorem firstIdxGo_lt_length (v : ℚ) (ts : List ℚ) (h : ∃ t ∈ ts, v ≤ t) :
    firstIdxGo v ts < ts.length := by
  induction ts with
  | nil => obtain ⟨t, ht, _⟩ := h; cases ht
  | cons t ts ih =>
      rw [firstIdxGo]
      by_cases hv : v ≤ t
      · rw [if_pos hv]; simp
      · rw [if_neg hv]
        have : ∃ u ∈ ts, v ≤ u := by
          obtain ⟨u, hu, huv⟩ := h
          rcases List.mem_cons.mp hu with rfl | hu
          · exact absurd huv hv
          · exact ⟨u, hu, huv⟩
        simpa using ih this

theorem firstIdxGo_le (v : ℚ) (ts : List ℚ) (h : ∃ t ∈ ts, v ≤ t) :
    v ≤ ts.getD (firstIdxGo v ts) 0 := by
  induction ts with
  | nil => obtain ⟨t, ht, _⟩ := h; cases ht
  | cons t ts ih =>
      rw [firstIdxGo]
      by_cases hv : v ≤ t
      · rw [if_pos hv]; simpa using hv
      · rw [if_neg hv]
        have hts : ∃ u ∈ ts, v ≤ u := by
          obtain ⟨u, hu, huv⟩ := h
          rcases List.mem_cons.mp hu with rfl | hu
          · exact absurd huv hv
          · exact ⟨u, hu, huv⟩
        simpa using ih hts

theorem firstIdxGo_first (v : ℚ) (ts : List ℚ) :
    ∀ j, j < firstIdxGo v ts → ts.getD j 0 < v := by
  induction ts with
  | nil => intro j hj; rw [firstIdxGo] at hj; omega
  | cons t ts ih =>
      intro j hj
      rw [firstIdxGo] at hj
      by_cases hv : v ≤ t
      · rw [if_pos hv] at hj; omega
      · rw [if_neg hv] at hj
        cases j with
        | zero => simpa using lt_of_not_le hv
        | succ j => simpa using ih j (by omega)

theorem activePoolGo_eq (v : ℚ) :
    ∀ (ks : List String) (ts : List ℚ) (prev : Option ℚ),
      ks.length = ts.length → (∃ t ∈ ts, v ≤ t) →
      activePoolGo v ks ts prev
        = .pair (ks.getD (firstIdxGo v ts) "")
            (v - (if firstIdxGo v ts = 0 then prev.getD 0
                  else ts.getD (firstIdxGo v ts - 1) 0)) := by
  intro ks
  induction ks with
  | nil =>
      intro ts prev hlen h
      obtain ⟨t, ht, _⟩ := h
      cases ts with
      | nil => cases ht
      | cons _ _ => cases hlen
  | cons k ks ih =>
      intro ts prev hlen h
      cases ts with
      | nil => cases hlen
      | cons t ts =>
          by_cases hv : v ≤ t
          · simp only [activePoolGo, firstIdxGo, if_pos hv]
            cases prev with
            | none => simp
            | some pv => simp
          · simp only [activePoolGo, firstIdxGo, if_neg hv]
            have hts : ∃ u ∈ ts, v ≤ u := by
              obtain ⟨u, hu, huv⟩ := h
              rcases List.mem_cons.mp hu with rfl | hu
              · exact absurd huv hv
              · exact ⟨u, hu, huv⟩
            rw [ih ts (some t) (by simpa using hlen) hts]
            cases hidx : firstIdxGo v ts with
            | zero => simp [hidx]
            | succ j => simp [hidx]

/-- C6: for a pools partition with matching name/top lengths, strictly
increasing tops, and any volume `v` with `0 ≤ v` and `v` at most the last
top, `active_pool` selects the first band whose top is `≥ v` (every
earlier top is `< v`), pairing its name with the in-band volume — `v` for
band 0, `v - top_locations(i-1)` otherwise; in particular `v` equal to a
top resolves to that band, never the next. -/
theorem active_pool_first_band (p : Pools) (v : ℚ)
    (hlen : p.names.length = p.top_locations.length)
    (hinc : p.top_locations.Chain' (· < ·))
    (hne : p.top_locations ≠ [])
    (h0 : 0 ≤ v)
    (hlast : v ≤ p.top_locations.getLast hne) :
    firstBandIdx p v < p.top_locations.length ∧
    (∀ j, j < firstBandIdx p v → p.top_locations.getD j 0 < v) ∧
    v ≤ p.top_locations.getD (firstBandIdx p v) 0 ∧
    p.active_pool v
      = .pair (p.names.getD (firstBandIdx p v) "")
          (if firstBandIdx p v = 0 then v
           else v - p.top_locations.getD (firstBandIdx p v - 1) 0) := by
  have hex : ∃ t ∈ p.top_locations, v ≤ t :=
    ⟨p.top_locations.getLast hne, List.getLast_mem hne, hlast⟩
  refine ⟨firstIdxGo_lt_length v _ hex, firstIdxGo_first v _, firstIdxGo_le v _ hex, ?_⟩
  rw [Pools.active_pool, activePoolGo_eq v p.names p.top_locations none hlen hex]
  unfold firstBandIdx
  by_cases hz : firstIdxGo v p.top_locations = 0
  · rw [hz]; simp
  · rw [if_neg hz, if_neg hz]

/-- Witness for C6: spec scenario — default pools, `v = 0.25` resolves to
the `conservation` band with in-band volume `0.05`. -/
theorem active_pool_first_band_witness :
    defaultPools.active_pool (1/4) = .pair "conservation" (1/4 - 2/10) := by
  have hne : defaultPools.top_locations ≠ [] := by simp [defaultPools]
  have hinc : defaultPools.top_locations.Chain' (· < ·) := by
    simp only [defaultPools, List.chain'_cons, List.chain'_singleton, and_true]
    norm_num
  have hlast : (1 : ℚ)/4 ≤ defaultPools.top_locations.getLast hne := by
    have hql : defaultPools.top_locations.getLast hne = 11/10 := rfl
    rw [hql]; norm_num
  have h := active_pool_first_band defaultPools (1/4) rfl hinc hne (by norm_num) hlast
  have hi : firstBandIdx defaultPools (1/4) = 1 := by
    rw [firstBandIdx]
    show firstIdxGo (1/4) [2/10, 5/10, 75/100, 9/10, 11/10] = 1
    rw [firstIdxGo, if_neg (by norm_num), firstIdxGo, if_pos (by norm_num)]
  rw [h.2.2.2, hi]
  norm_num [defaultPools]
